import Mathlib

/-!
Verification development for a small disk-backed relational engine
(`mydb`).  The definitions below are shallow embeddings of the Rust
sources: byte buffers become `List Nat` (each entry one byte), fallible
operations return `Except String`, and the stateful managers become
explicit state-passing functions.  Machine integers are modelled as
`Nat` with explicit truncation (`% 2^w`) where the source stores them
into fixed-width fields.
-/

deriving instance DecidableEq for Except

namespace MyDb

/-! ## Byte-level helpers (little-endian fields, as in the Rust sources) -/

namespace Bytes

/-- Read one byte; out-of-range reads yield 0 (pages are zero-filled). -/
def readByte (d : List Nat) (i : Nat) : Nat := d.getD i 0

/-- Write one byte (truncated to 8 bits); out-of-range writes are dropped. -/
def writeByte (d : List Nat) (i : Nat) (b : Nat) : List Nat := d.set i (b % 256)

/-- Copy a byte slice into the buffer starting at `i`
(`copy_from_slice` on `data[i..i+bs.len()]`). -/
def writeBytes : List Nat → Nat → List Nat → List Nat
  | d, _, [] => d
  | d, i, b :: bs => writeBytes (writeByte d i b) (i + 1) bs

/-- Little-endian bytes of a `u16`. -/
def u16Bytes (v : Nat) : List Nat := [v % 256, v / 256 % 256]

/-- Little-endian bytes of a `u32`. -/
def u32Bytes (v : Nat) : List Nat :=
  [v % 256, v / 256 % 256, v / 256 ^ 2 % 256, v / 256 ^ 3 % 256]

/-- Little-endian bytes of a `u64`. -/
def u64Bytes (v : Nat) : List Nat :=
  [v % 256, v / 256 % 256, v / 256 ^ 2 % 256, v / 256 ^ 3 % 256,
   v / 256 ^ 4 % 256, v / 256 ^ 5 % 256, v / 256 ^ 6 % 256, v / 256 ^ 7 % 256]

/-- Read a little-endian `u16` at offset `i`. -/
def readU16 (d : List Nat) (i : Nat) : Nat :=
  readByte d i + 256 * readByte d (i + 1)

/-- Read a little-endian `u32` at offset `i`. -/
def readU32 (d : List Nat) (i : Nat) : Nat :=
  readByte d i + 256 * readByte d (i + 1) + 256 ^ 2 * readByte d (i + 2) +
    256 ^ 3 * readByte d (i + 3)

/-- Read a little-endian `u64` at offset `i`. -/
def readU64 (d : List Nat) (i : Nat) : Nat :=
  readByte d i + 256 * readByte d (i + 1) + 256 ^ 2 * readByte d (i + 2) +
    256 ^ 3 * readByte d (i + 3) + 256 ^ 4 * readByte d (i + 4) +
    256 ^ 5 * readByte d (i + 5) + 256 ^ 6 * readByte d (i + 6) +
    256 ^ 7 * readByte d (i + 7)

end Bytes

/-! ## Slotted data pages (`src/engine/src/storage/record.rs`) -/

namespace Record

open Bytes

/-- A RID is `(page_no, slot_no)`. -/
abbrev RID := Nat × Nat

/-- Header: `page_id:u64` (0..8), `slot_count:u16` (8..10),
`free_space_off:u16` (10..12). -/
def HEADER_SIZE : Nat := 12

/-- A slot entry is `offset:u16` + `length:u16`. -/
def SLOT_ENTRY_SIZE : Nat := 4

/-- `Page::new`: zero page with `page_id`, `slot_count = 0`,
`free_space_off = page_size` (as `u16`). -/
def pageNew (pageId pageSize : Nat) : List Nat :=
  writeBytes (List.replicate pageSize 0) 0
    (u64Bytes pageId ++ u16Bytes 0 ++ u16Bytes pageSize)

def pageId (d : List Nat) : Nat := readU64 d 0

def slotCount (d : List Nat) : Nat := readU16 d 8

def freeSpaceOff (d : List Nat) : Nat := readU16 d 10

def slotDirOffset : Nat := HEADER_SIZE

def payloadStart (d : List Nat) : Nat :=
  slotDirOffset + slotCount d * SLOT_ENTRY_SIZE

/-- `free_space = free_space_off - payload_start` (usize subtraction;
well-formed pages keep this non-negative). -/
def freeSpace (d : List Nat) : Nat := freeSpaceOff d - payloadStart d

/-- `Page::insert_tuple`. Returns the updated page bytes and the RID. -/
def insertTuple (d : List Nat) (tuple : List Nat) :
    Except String (List Nat × RID) :=
  let needed := tuple.length + SLOT_ENTRY_SIZE
  if needed > freeSpace d then
    .error "Not enough free space"
  else
    let freeOff := freeSpaceOff d
    let newFreeOff := freeOff - tuple.length
    let d1 := writeBytes d newFreeOff tuple
    let slotNo := slotCount d
    let entryOff := slotDirOffset + slotNo * SLOT_ENTRY_SIZE
    let d2 := writeBytes d1 entryOff (u16Bytes newFreeOff ++ u16Bytes tuple.length)
    let d3 := writeBytes d2 8 (u16Bytes (slotNo + 1))
    let d4 := writeBytes d3 10 (u16Bytes newFreeOff)
    .ok (d4, (pageId d, slotNo))

/-- `Page::get_tuple`: `None` iff `slot_no ≥ slot_count`, otherwise the
byte slice `data[off..off+len]` named by the slot entry. -/
def getTuple (d : List Nat) (slotNo : Nat) : Option (List Nat) :=
  if slotCount d ≤ slotNo then none
  else
    let entryOff := slotDirOffset + slotNo * SLOT_ENTRY_SIZE
    let off := readU16 d entryOff
    let len := readU16 d (entryOff + 2)
    some ((d.drop off).take len)

/-- `Page::delete_tuple`: writes length 0 into the slot entry (lazy
tombstone). -/
def deleteTuple (d : List Nat) (slotNo : Nat) : Except String (List Nat) :=
  if slotCount d ≤ slotNo then .error "Invalid slot number"
  else
    let entryOff := slotDirOffset + slotNo * SLOT_ENTRY_SIZE
    .ok (writeBytes d (entryOff + 2) (u16Bytes 0))

/-- `Page::iter_slots`: every slot whose tuple is non-empty, in slot
order. -/
def iterSlots (d : List Nat) : List (Nat × List Nat) :=
  (List.range (slotCount d)).filterMap fun slotNo =>
    match getTuple d slotNo with
    | some t => if t ≠ [] then some (slotNo, t) else none
    | none => none

end Record

/-! ## Page file and `Storage::fetch` (`storage.rs`, `pagefile.rs`).
The data file is the list of its pages (each a byte list). -/

namespace Store

open Record

/-- `PageFile::read_page`: fails past EOF (`UnexpectedEof`). -/
def readPage (file : List (List Nat)) (pageNo : Nat) :
    Except String (List Nat) :=
  match file[pageNo]? with
  | some d => .ok d
  | none => .error "UnexpectedEof"

/-- `PageFile::write_page` (page already page-sized). -/
def writePage (file : List (List Nat)) (pageNo : Nat) (d : List Nat) :
    List (List Nat) :=
  file.set pageNo d

/-- `Storage::fetch`: fetch the page, then `get_tuple`, erroring with
`Record not found` when the slot is absent. -/
def fetch (file : List (List Nat)) (rid : RID) : Except String (List Nat) :=
  match readPage file rid.1 with
  | .error e => .error e
  | .ok d =>
      match getTuple d rid.2 with
      | some rec => .ok rec
      | none => .error "Record not found"

/-- `SeqScanOp::open`: enumerate pages `0..num_pages`, and on each page
every non-tombstone slot, queueing all RIDs (regardless of which table
owns the page). -/
def seqScanRids (file : List (List Nat)) : List RID :=
  file.enum.flatMap fun pd => (iterSlots pd.2).map fun st => (pd.1, st.1)

end Store

/-! ## Recovery redo/undo (`src/engine/src/tx/recovery_manager.rs`) -/

namespace Recovery

open Bytes Store

/-- One `redo_pass` iteration for an Update record: the source parses
`page_no` and `offset`, then takes `after := payload[12..]` — i.e. the
whole tail of the payload, the before-image followed by the
after-image — and copies it onto the page at `offset`. -/
def redoUpdateStep (file : List (List Nat)) (dirtyPages : List Nat)
    (payload : List Nat) : Except String (List (List Nat)) :=
  let pageNo := readU64 payload 0
  if pageNo ∈ dirtyPages then
    let offset := readU32 payload 8
    let after := payload.drop 12
    match readPage file pageNo with
    | .error e => .error e
    | .ok page => .ok (writePage file pageNo (writeBytes page offset after))
  else
    .ok file

/-- One `undo_pass` iteration for an Update record: here the source does
split the images, `half = (len - 12) / 2`, and applies the before-image
`payload[12..12+half]`. -/
def undoUpdateStep (file : List (List Nat)) (payload : List Nat) :
    Except String (List (List Nat)) :=
  let pageNo := readU64 payload 0
  let offset := readU32 payload 8
  let half := (payload.length - 12) / 2
  let before := (payload.drop 12).take half
  match readPage file pageNo with
  | .error e => .error e
  | .ok page => .ok (writePage file pageNo (writeBytes page offset before))

/-- What the spec (and the claim) require of a redo step: write exactly
the after-image — the second of the two equal-length images — at the
recorded offset. -/
def redoUpdateStepSpec (file : List (List Nat)) (payload : List Nat) :
    Except String (List (List Nat)) :=
  let pageNo := readU64 payload 0
  let offset := readU32 payload 8
  let half := (payload.length - 12) / 2
  let afterImage := (payload.drop (12 + half)).take half
  match readPage file pageNo with
  | .error e => .error e
  | .ok page => .ok (writePage file pageNo (writeBytes page offset afterImage))

end Recovery

/-! ## Write-ahead log (`src/engine/src/tx/log_manager.rs`) -/

namespace Wal

/-- Record types: Begin(0), Commit(1), Abort(2), Update(3). -/
inductive RecType
  | rBegin
  | rCommit
  | rAbort
  | rUpdate
deriving DecidableEq

/-- A log record (header fields fused in, payload as bytes). -/
structure LogRec where
  lsn : Nat
  prevLsn : Option Nat
  txId : Nat
  typ : RecType
  payload : List Nat
deriving DecidableEq

/-- `LogManagerInner`: the WAL file contents are modelled as the list of
records appended to it; `flush` performs `write_all` + BufWriter flush +
`sync_data` before returning, so a record in `fileRecs` is durable. -/
structure LogMgrState where
  nextLsn : Nat
  lastLsn : List (Nat × Nat)
  flushedLsn : Nat
  buffer : List LogRec
  fileRecs : List LogRec
deriving DecidableEq

/-- Fresh `LogManager`: `next_lsn = 1`, empty maps and buffers. -/
def initState : LogMgrState :=
  { nextLsn := 1, lastLsn := [], flushedLsn := 0, buffer := [], fileRecs := [] }

/-- `HashMap::get` on the per-transaction last-LSN map. -/
def lookupLast (m : List (Nat × Nat)) (tx : Nat) : Option Nat :=
  m.lookup tx

/-- `HashMap::insert` on the per-transaction last-LSN map. -/
def insertLast (m : List (Nat × Nat)) (tx lsn : Nat) : List (Nat × Nat) :=
  (tx, lsn) :: m.filter fun p => p.1 != tx

/-- `LogManager::append_record`: assign the next LSN, chain `prev_lsn`
to the transaction's previous record, push onto the in-memory buffer. -/
def appendRecord (s : LogMgrState) (tx : Nat) (typ : RecType)
    (payload : List Nat) : Nat × LogMgrState :=
  let lsn := s.nextLsn
  let prev := lookupLast s.lastLsn tx
  (lsn,
    { s with
        nextLsn := lsn + 1
        lastLsn := insertLast s.lastLsn tx lsn
        buffer := s.buffer ++ [⟨lsn, prev, tx, typ, payload⟩] })

/-- `LogManager::flush`: drain buffered records from the front while
their LSN is ≤ target (the source loop repeatedly removes the first
buffer element while it satisfies this), append them to the file in
order, fsync, and record the flushed LSN. -/
def flush (s : LogMgrState) (target : Nat) : LogMgrState :=
  let toWrite := s.buffer.takeWhile fun r => r.lsn ≤ target
  let rest := s.buffer.dropWhile fun r => r.lsn ≤ target
  { s with buffer := rest, fileRecs := s.fileRecs ++ toWrite, flushedLsn := target }

/-- `LogManager::log_begin`. -/
def logBegin (s : LogMgrState) (tx : Nat) : Nat × LogMgrState :=
  appendRecord s tx .rBegin []

/-- `LogManager::log_update`. -/
def logUpdate (s : LogMgrState) (tx : Nat) (payload : List Nat) :
    Nat × LogMgrState :=
  appendRecord s tx .rUpdate payload

/-- `LogManager::log_commit`: buffer a Commit record, then flush up
through its LSN. -/
def logCommit (s : LogMgrState) (tx : Nat) : Nat × LogMgrState :=
  let r := appendRecord s tx .rCommit []
  (r.1, flush r.2 r.1)

/-- `LogManager::log_abort`: buffer an Abort record, then flush. -/
def logAbort (s : LogMgrState) (tx : Nat) : Nat × LogMgrState :=
  let r := appendRecord s tx .rAbort []
  (r.1, flush r.2 r.1)

/-- The commit record `log_commit` appends for `tx` in state `s`. -/
def commitRec (s : LogMgrState) (tx : Nat) : LogRec :=
  ⟨s.nextLsn, lookupLast s.lastLsn tx, tx, .rCommit, []⟩

/-- Strictly increasing list of naturals (executable). -/
def strictIncr : List Nat → Bool
  | [] => true
  | [_] => true
  | a :: b :: rest => a < b && strictIncr (b :: rest)

/-- State well-formedness maintained by the LogManager API: LSNs of
file records followed by buffered records are strictly increasing, and
all are below `next_lsn`. -/
def wfState (s : LogMgrState) : Prop :=
  strictIncr ((s.fileRecs ++ s.buffer).map (·.lsn)) = true ∧
    ∀ r ∈ s.fileRecs ++ s.buffer, r.lsn < s.nextLsn

instance (s : LogMgrState) : Decidable (wfState s) :=
  inferInstanceAs (Decidable
    (strictIncr ((s.fileRecs ++ s.buffer).map (·.lsn)) = true ∧
      ∀ r ∈ s.fileRecs ++ s.buffer, r.lsn < s.nextLsn))

end Wal

/-! ## Lock manager (`src/engine/src/tx/lock_manager.rs`) -/

namespace Lock

inductive LockMode
  | shared
  | exclusive
deriving DecidableEq

structure LockRequest where
  tx : Nat
  mode : LockMode
deriving DecidableEq

/-- Lock state for one resource: granted holders and the FIFO wait
queue (the oneshot wakers carry no data and are omitted). -/
structure LockState where
  holders : List (Nat × LockMode)
  queue : List LockRequest
deriving DecidableEq

/-- `LockState::can_grant`: grant iff no holders, or the request is
Shared and every holder is Shared.  The wait queue is not consulted. -/
def canGrant (st : LockState) (req : LockRequest) : Bool :=
  if st.holders.isEmpty then true
  else
    match req.mode with
    | .shared => st.holders.all fun p => p.2 == LockMode.shared
    | .exclusive => false

/-- `LockManager::lock` on one resource: grant immediately when
`can_grant`, else append to the wait queue.  The Bool reports whether
the request was granted without waiting. -/
def lockStep (st : LockState) (tx : Nat) (mode : LockMode) :
    LockState × Bool :=
  let req : LockRequest := ⟨tx, mode⟩
  if canGrant st req then
    ({ holders := st.holders ++ [(tx, mode)], queue := st.queue }, true)
  else
    ({ holders := st.holders, queue := st.queue ++ [req] }, false)

/-- The grant loop of `LockManager::unlock_all` for one resource: walk
the queue head-first, granting while compatible; stop after granting an
Exclusive or on the first incompatible head.  Returns the new holders,
the remaining queue, and the woken (granted) requests in grant order. -/
def grantLoop : List (Nat × LockMode) → List LockRequest →
    List (Nat × LockMode) × List LockRequest × List LockRequest
  | holders, [] => (holders, [], [])
  | holders, q :: rest =>
      if holders.isEmpty ||
          (q.mode == LockMode.shared &&
            holders.all fun p => p.2 == LockMode.shared) then
        let holders2 := holders ++ [(q.tx, q.mode)]
        if q.mode == LockMode.exclusive then (holders2, rest, [q])
        else
          let r := grantLoop holders2 rest
          (r.1, r.2.1, q :: r.2.2)
      else (holders, q :: rest, [])

/-- `LockManager::unlock_all` on one resource: drop the transaction
from holders, then run the grant loop over the queue. -/
def unlockAllRes (tx : Nat) (st : LockState) :
    LockState × List LockRequest :=
  let holders1 := st.holders.filter fun p => p.1 != tx
  let r := grantLoop holders1 st.queue
  ({ holders := r.1, queue := r.2.1 }, r.2.2)

end Lock

/-! ## Storage catalog (`storage.rs`: `Catalog`, exact `HashMap` keys) -/

namespace Cat

inductive SDataType
  | int
  | str
deriving DecidableEq

structure SColumnInfo where
  name : String
  dataType : SDataType
deriving DecidableEq

structure STableInfo where
  name : String
  columns : List SColumnInfo
  records : List Record.RID
deriving DecidableEq

structure IndexInfo where
  name : String
  table : String
  column : String
  order : Nat
  rootPage : Nat
deriving DecidableEq

/-- `Catalog.tables`: a `HashMap<String, TableInfo>` is modelled as an
association list with the same exact-string keys as the source. -/
abbrev CatTables := List (String × STableInfo)

def lookupTable (ts : CatTables) (name : String) : Option STableInfo :=
  ts.lookup name

/-- `Catalog::create_table`: fails iff the exact name is already a key;
the stored `TableInfo.name` is the argument string unchanged. -/
def createTable (ts : CatTables) (name : String) (cols : List SColumnInfo) :
    Except String CatTables :=
  if (lookupTable ts name).isSome then .error "Table already exists"
  else .ok ((name, ⟨name, cols, []⟩) :: ts)

/-- `Catalog::get_table`: exact-key lookup. -/
def getTable (ts : CatTables) (name : String) : Except String STableInfo :=
  match lookupTable ts name with
  | some t => .ok t
  | none => .error "Table not found"

end Cat

/-! ## Lexer identifier handling (`src/engine/src/query/lexer.rs`) -/

namespace Lex

/-- ASCII uppercase of one character (`to_ascii_uppercase`). -/
def upChar (c : Char) : Char :=
  if 97 ≤ c.toNat ∧ c.toNat ≤ 122 then Char.ofNat (c.toNat - 32) else c

/-- ASCII uppercase of a string. -/
def asciiUpper (s : String) : String := String.mk (s.data.map upChar)

/-- ASCII lowercase of one character (`to_ascii_lowercase`). -/
def downChar (c : Char) : Char :=
  if 65 ≤ c.toNat ∧ c.toNat ≤ 90 then Char.ofNat (c.toNat + 32) else c

/-- ASCII lowercase of a string. -/
def asciiLower (s : String) : String := String.mk (s.data.map downChar)

/-- `eq_ignore_ascii_case`. -/
def eqIgnoreAsciiCase (a b : String) : Bool := asciiUpper a == asciiUpper b

inductive TokenKind
  | kwSelect
  | kwInsert
  | kwUpdate
  | kwDelete
  | kwFrom
  | kwWhere
  | kwAnd
  | kwOr
  | kwCreate
  | kwTable
  | kwInto
  | kwValues
  | identifier (s : String)
  | intLit (v : Int)
  | stringLit (s : String)
  | opEq
  | opNotEq
  | opLt
  | opLtEq
  | opGt
  | opGtEq
  | opPlus
  | opMinus
  | opStar
  | opSlash
  | comma
  | semicolon
  | lparen
  | rparen
  | eof
deriving DecidableEq

/-- `read_identifier_or_keyword` followed by the keyword match in
`next_token`: the scanned run is ASCII-uppercased before the keyword
table is consulted, and non-keywords become `Identifier` tokens holding
the uppercased text. -/
def identOrKeyword (raw : String) : TokenKind :=
  let ident := asciiUpper raw
  if ident = "SELECT" then .kwSelect
  else if ident = "INSERT" then .kwInsert
  else if ident = "UPDATE" then .kwUpdate
  else if ident = "DELETE" then .kwDelete
  else if ident = "FROM" then .kwFrom
  else if ident = "WHERE" then .kwWhere
  else if ident = "AND" then .kwAnd
  else if ident = "OR" then .kwOr
  else if ident = "CREATE" then .kwCreate
  else if ident = "TABLE" then .kwTable
  else if ident = "INTO" then .kwInto
  else if ident = "VALUES" then .kwValues
  else .identifier ident

end Lex

/-! ## Recursive-descent statement parsing
(`src/engine/src/query/parser.rs`), over the token stream the lexer
produced.  The source recursion is modelled with explicit fuel; the
fuel bounds below are generous enough that exhaustion never occurs on
inputs the source terminates on. -/

namespace Parse

open Lex

inductive RawValue
  | vInt (i : Int)
  | vStr (s : String)
deriving DecidableEq

inductive BinOp
  | opEq
  | opNotEq
  | opLt
  | opLtEq
  | opGt
  | opGtEq
  | opAnd
  | opOr
deriving DecidableEq

inductive Expr
  | col (name : String)
  | lit (v : RawValue)
  | binOp (left : Expr) (op : BinOp) (right : Expr)
deriving DecidableEq

inductive Stmt
  | createTable (name : String) (columns : List (String × String))
  | createIndex (indexName : String) (table : String) (column : String)
  | insertInto (table : String) (columns : List String) (values : List Expr)
  | select (projections : List Expr) (table : String) (filter : Option Expr)
deriving DecidableEq

structure PState where
  tokens : List TokenKind
  pos : Nat
deriving DecidableEq

/-- `Parser::peek` (EOF past the end). -/
def peek (p : PState) : TokenKind := p.tokens.getD p.pos .eof

/-- Advance past the current token. -/
def advance (p : PState) : PState := { p with pos := p.pos + 1 }

/-- `Parser::expect`. -/
def expectTok (p : PState) (k : TokenKind) : Except String PState :=
  if peek p = k then .ok (advance p) else .error "Expected token"

/-- `Parser::peek_op_prec`. -/
def peekOpPrec (p : PState) : Option (BinOp × Nat) :=
  match peek p with
  | .opEq => some (.opEq, 10)
  | .opNotEq => some (.opNotEq, 10)
  | .opLt => some (.opLt, 10)
  | .opLtEq => some (.opLtEq, 10)
  | .opGt => some (.opGt, 10)
  | .opGtEq => some (.opGtEq, 10)
  | .kwAnd => some (.opAnd, 5)
  | .kwOr => some (.opOr, 4)
  | _ => none

mutual

/-- `Parser::parse_primary`. -/
def parsePrimary : Nat → PState → Except String (Expr × PState)
  | 0, _ => .error "parse fuel exhausted"
  | fuel + 1, p =>
      match peek p with
      | .identifier id => .ok (.col id, advance p)
      | .intLit v => .ok (.lit (.vInt v), advance p)
      | .stringLit s => .ok (.lit (.vStr s), advance p)
      | .lparen => do
          let ep ← parseBinOpExpr fuel 0 (advance p)
          let p2 ← expectTok ep.2 .rparen
          .ok (ep.1, p2)
      | _ => .error "Unexpected token in expression"

/-- `Parser::parse_binary_op` (precedence climbing). -/
def parseBinOpExpr : Nat → Nat → PState → Except String (Expr × PState)
  | 0, _, _ => .error "parse fuel exhausted"
  | fuel + 1, minPrec, p => do
      let lp ← parsePrimary fuel p
      parseBinOpLoop fuel minPrec lp.1 lp.2

/-- The `while let Some((op, prec))` loop of `parse_binary_op`. -/
def parseBinOpLoop : Nat → Nat → Expr → PState → Except String (Expr × PState)
  | 0, _, _, _ => .error "parse fuel exhausted"
  | fuel + 1, minPrec, left, p =>
      match peekOpPrec p with
      | some op =>
          if op.2 < minPrec then .ok (left, p)
          else do
            let rp ← parseBinOpExpr fuel (op.2 + 1) (advance p)
            parseBinOpLoop fuel minPrec (.binOp left op.1 rp.1) rp.2
      | none => .ok (left, p)

end

/-- `Parser::parse_expr`. -/
def parseExpr (p : PState) : Except String (Expr × PState) :=
  parseBinOpExpr (p.tokens.length + 1) 0 p

/-- The column-definition loop of `parse_create_table`. -/
def parseColDefs : Nat → PState → List (String × String) →
    Except String (List (String × String) × PState)
  | 0, _, _ => .error "parse fuel exhausted"
  | fuel + 1, p, acc => do
      let cn ← (match peek p with
        | .identifier id => .ok id
        | _ => .error "Expected column name")
      let p1 := advance p
      let ct ← (match peek p1 with
        | .identifier tp => .ok tp
        | _ => .error "Expected type name")
      let p2 := advance p1
      let acc2 := acc ++ [(cn, ct)]
      if peek p2 = .comma then parseColDefs fuel (advance p2) acc2
      else .ok (acc2, p2)

/-- `Parser::parse_create_table`. -/
def parseCreateTable (p : PState) : Except String (Stmt × PState) := do
  let p1 ← expectTok p .kwCreate
  let p2 ← expectTok p1 .kwTable
  let name ← (match peek p2 with
    | .identifier id => .ok id
    | _ => .error "Expected table name")
  let p3 := advance p2
  let p4 ← expectTok p3 .lparen
  let cp ← parseColDefs (p.tokens.length + 1) p4 []
  let p5 ← expectTok cp.2 .rparen
  let p6 ← expectTok p5 .semicolon
  .ok (.createTable name cp.1, p6)

/-- `Parser::parse_create_index` (INDEX / ON are identifier keywords,
compared case-insensitively). -/
def parseCreateIndex (p : PState) : Except String (Stmt × PState) := do
  let p1 ← expectTok p .kwCreate
  let p2 ← (match peek p1 with
    | .identifier s =>
        if eqIgnoreAsciiCase s "INDEX" then .ok (advance p1)
        else .error "Expected INDEX"
    | _ => .error "Expected INDEX")
  let ixName ← (match peek p2 with
    | .identifier id => .ok id
    | _ => .error "Expected index name")
  let p3 := advance p2
  let p4 ← (match peek p3 with
    | .identifier s =>
        if eqIgnoreAsciiCase s "ON" then .ok (advance p3)
        else .error "Expected ON"
    | _ => .error "Expected ON")
  let table ← (match peek p4 with
    | .identifier id => .ok id
    | _ => .error "Expected table name")
  let p5 := advance p4
  let p6 ← expectTok p5 .lparen
  let column ← (match peek p6 with
    | .identifier id => .ok id
    | _ => .error "Expected column name")
  let p7 := advance p6
  let p8 ← expectTok p7 .rparen
  let p9 ← expectTok p8 .semicolon
  .ok (.createIndex ixName table column, p9)

/-- The column-name loop of `parse_insert`. -/
def parseInsertCols : Nat → PState → List String →
    Except String (List String × PState)
  | 0, _, _ => .error "parse fuel exhausted"
  | fuel + 1, p, acc => do
      let cn ← (match peek p with
        | .identifier id => .ok id
        | _ => .error "Expected column name")
      let p1 := advance p
      let acc2 := acc ++ [cn]
      if peek p1 = .comma then parseInsertCols fuel (advance p1) acc2
      else .ok (acc2, p1)

/-- The value-expression loop of `parse_insert`. -/
def parseValueList : Nat → PState → List Expr →
    Except String (List Expr × PState)
  | 0, _, _ => .error "parse fuel exhausted"
  | fuel + 1, p, acc => do
      let ep ← parseExpr p
      let acc2 := acc ++ [ep.1]
      if peek ep.2 = .comma then parseValueList fuel (advance ep.2) acc2
      else .ok (acc2, ep.2)

/-- `Parser::parse_insert`. -/
def parseInsert (p : PState) : Except String (Stmt × PState) := do
  let p1 ← expectTok p .kwInsert
  let p2 ← expectTok p1 .kwInto
  let table ← (match peek p2 with
    | .identifier id => .ok id
    | _ => .error "Expected table name")
  let p3 := advance p2
  let p4 ← expectTok p3 .lparen
  let cp ← parseInsertCols (p.tokens.length + 1) p4 []
  let p5 ← expectTok cp.2 .rparen
  let p6 ← expectTok p5 .kwValues
  let p7 ← expectTok p6 .lparen
  let vp ← parseValueList (p.tokens.length + 1) p7 []
  let p8 ← expectTok vp.2 .rparen
  let p9 ← expectTok p8 .semicolon
  .ok (.insertInto table cp.1 vp.1, p9)

/-- The projection loop of `parse_select`. -/
def parseProjList : Nat → PState → List Expr →
    Except String (List Expr × PState)
  | 0, _, _ => .error "parse fuel exhausted"
  | fuel + 1, p, acc => do
      let ep ← parseExpr p
      let acc2 := acc ++ [ep.1]
      if peek ep.2 = .comma then parseProjList fuel (advance ep.2) acc2
      else .ok (acc2, ep.2)

/-- `Parser::parse_select`. -/
def parseSelect (p : PState) : Except String (Stmt × PState) := do
  let p1 ← expectTok p .kwSelect
  let pj ← parseProjList (p.tokens.length + 1) p1 []
  let p2 ← expectTok pj.2 .kwFrom
  let table ← (match peek p2 with
    | .identifier id => .ok id
    | _ => .error "Expected table name")
  let p3 := advance p2
  let fp ← (if peek p3 = .kwWhere then do
      let ep ← parseExpr (advance p3)
      (.ok (some ep.1, ep.2) : Except String (Option Expr × PState))
    else .ok (none, p3))
  let p4 ← expectTok fp.2 .semicolon
  .ok (.select pj.1 table fp.1, p4)

/-- `Parser::parse_statement`. -/
def parseStmt (tokens : List TokenKind) : Except String Stmt := do
  let p : PState := ⟨tokens, 0⟩
  let sp ← (match peek p with
    | .kwCreate =>
        (match p.tokens.getD (p.pos + 1) .eof with
         | .identifier s =>
             if eqIgnoreAsciiCase s "INDEX" then parseCreateIndex p
             else parseCreateTable p
         | _ => parseCreateTable p)
    | .kwInsert => parseInsert p
    | .kwSelect => parseSelect p
    | _ => .error "Unexpected token at start of statement")
  .ok sp.1

end Parse

/-! ## Binder (`src/engine/src/query/binder.rs`).  The binder catalog is
keyed by ASCII-lowercased table names. -/

namespace Bind

open Parse Lex

inductive BDataType
  | int
  | varchar
deriving DecidableEq

/-- `DataType::from_str` (case-insensitive). -/
def dataTypeFromStr (s : String) : Option BDataType :=
  let l := asciiLower s
  if l = "int" ∨ l = "integer" then some .int
  else if l = "varchar" ∨ l = "text" ∨ l = "string" then some .varchar
  else none

inductive BValue
  | vInt (i : Int)
  | vStr (s : String)
deriving DecidableEq

structure ColumnMeta where
  name : String
  dataType : BDataType
  ordinal : Nat
deriving DecidableEq

structure TableMeta where
  name : String
  columns : List ColumnMeta
  colIndex : List (String × Nat)
deriving DecidableEq

/-- The binder catalog `tables` map (key = lowercased name). -/
abbrev BindTables := List (String × TableMeta)

/-- Binder `Catalog::create_table`. -/
def bcCreateTable (ts : BindTables) (name : String)
    (cols : List (String × String)) : Except String BindTables :=
  let key := asciiLower name
  if (ts.lookup key).isSome then .error "Table already exists"
  else do
    let metas ← cols.enum.mapM fun ic =>
      match dataTypeFromStr ic.2.2 with
      | some dt => .ok (⟨ic.2.1, dt, ic.1⟩ : ColumnMeta)
      | none => .error "Unknown type"
    let colIdx := cols.enum.map fun ic => (asciiLower ic.2.1, ic.1)
    .ok ((key, ⟨name, metas, colIdx⟩) :: ts)

/-- Binder `Catalog::get_table` (lowercases the probe). -/
def bcGetTable (ts : BindTables) (name : String) : Except String TableMeta :=
  match ts.lookup (asciiLower name) with
  | some t => .ok t
  | none => .error "Unknown table"

inductive BoundExpr
  | col (table : String) (name : String) (ordinal : Nat) (dataType : BDataType)
  | lit (v : BValue)
  | binOp (left : BoundExpr) (op : Parse.BinOp) (right : BoundExpr)
      (dataType : BDataType)
deriving DecidableEq

def isIntLit : BoundExpr → Bool
  | .lit (.vInt _) => true
  | _ => false

def isIntCol : BoundExpr → Bool
  | .col _ _ _ .int => true
  | _ => false

/-- `Binder::bind_expr`. -/
def bindExpr (ts : BindTables) (table : String) :
    Parse.Expr → Except String BoundExpr
  | .col c => do
      let meta ← bcGetTable ts table
      match meta.colIndex.lookup (asciiLower c) with
      | some ord =>
          let dt := (meta.columns.getD ord ⟨"", .int, 0⟩).dataType
          .ok (.col table c ord dt)
      | none => .error "Unknown column"
  | .lit rv =>
      .ok (.lit (match rv with | .vInt i => .vInt i | .vStr s => .vStr s))
  | .binOp l op r => do
      let lb ← bindExpr ts table l
      let rb ← bindExpr ts table r
      if (isIntLit lb && isIntLit rb) || (isIntCol lb && isIntCol rb) ||
          (isIntCol lb && isIntLit rb) || (isIntLit lb && isIntCol rb) then
        .ok (.binOp lb op rb .int)
      else .error "Type mismatch in binary operator"

inductive BoundStmt
  | createTable (name : String) (columns : List (String × BDataType))
  | insertInto (table : String) (colOrdinals : List Nat)
      (values : List BoundExpr)
  | select (projections : List BoundExpr) (table : String)
      (filter : Option BoundExpr)
deriving DecidableEq

/-- `Binder::bind`.  The source match covers CreateTable, Insert and
Select; `Statement::CreateIndex` never reaches the binder (the server
handles it earlier), so it is mapped to an error here. -/
def bind (ts : BindTables) :
    Parse.Stmt → Except String (BoundStmt × BindTables)
  | .createTable name cols => do
      let ts2 ← bcCreateTable ts name cols
      let bcols ← cols.mapM fun ct =>
        match dataTypeFromStr ct.2 with
        | some dt => .ok (ct.1, dt)
        | none => .error "Unknown type"
      .ok (.createTable name bcols, ts2)
  | .createIndex _ _ _ => .error "Bind: unsupported statement"
  | .insertInto table cols vals => do
      let meta ← bcGetTable ts table
      let ords ← cols.mapM fun c =>
        match meta.colIndex.lookup (asciiLower c) with
        | some o => .ok o
        | none => .error "Unknown column"
      let bvals ← vals.mapM (bindExpr ts table)
      .ok (.insertInto table ords bvals, ts)
  | .select projs table filterE => do
      let _meta ← bcGetTable ts table
      let bp ← projs.mapM (bindExpr ts table)
      let bf ← (match filterE with
        | some f => do
            let b ← bindExpr ts table f
            (.ok (some b) : Except String (Option BoundExpr))
        | none => .ok none)
      .ok (.select bp table bf, ts)

end Bind

/-! ## Logical planner and optimizer
(`src/engine/src/query/planner.rs`, `optimizer.rs`) -/

namespace Plan

open Bind Lex

inductive LogicalPlan
  | createTable (tableName : String) (columns : List (String × BDataType))
  | insertNode (tableName : String) (colOrdinals : List Nat)
      (values : List BoundExpr)
  | seqScan (table : String) (aliasName : Option String)
      (predicate : Option BoundExpr)
  | filter (input : LogicalPlan) (predicate : BoundExpr)
  | projection (input : LogicalPlan) (exprs : List BoundExpr)
deriving DecidableEq

/-- `Planner::plan` / `plan_select`. -/
def plan (ts : BindTables) : BoundStmt → Except String LogicalPlan
  | .createTable name cols => .ok (.createTable name cols)
  | .insertInto table ords vals =>
      if (ts.lookup (asciiLower table)).isSome then
        .ok (.insertNode table ords vals)
      else .error "Planner: unknown table"
  | .select projs table filterE =>
      match ts.lookup (asciiLower table) with
      | none => .error "Planner: unknown table"
      | some _ =>
          let base := LogicalPlan.seqScan table none none
          let withF := match filterE with
            | some p => LogicalPlan.filter base p
            | none => base
          .ok (.projection withF projs)

/-- `Optimizer::apply_rules` (one local rewrite at the root). -/
def applyRules : LogicalPlan → LogicalPlan
  | .filter input predicate =>
      match input with
      | .filter inner p1 =>
          .filter inner (.binOp p1 .opAnd predicate .int)
      | .projection grand exprs =>
          .projection (.filter grand predicate) exprs
      | _ => .filter input predicate
  | .projection input exprs =>
      match input with
      | .projection inner _ => .projection inner exprs
      | _ => .projection input exprs
  | other => other

/-- `Optimizer::rewrite`: rewrite children bottom-up, then apply the
rules at this node. -/
def rewriteOnce : LogicalPlan → LogicalPlan
  | .filter input p => applyRules (.filter (rewriteOnce input) p)
  | .projection input es => applyRules (.projection (rewriteOnce input) es)
  | other => applyRules other

/-- `Optimizer::optimize`: fix-point iteration; the source compares the
debug renderings of successive trees, which coincides with structural
equality.  Explicit fuel stands in for the unbounded loop; on every tree
considered here the fix point is reached within the fuel. -/
def optimizeGo : Nat → LogicalPlan → LogicalPlan
  | 0, p => p
  | fuel + 1, p =>
      let next := rewriteOnce p
      if next = p then next else optimizeGo fuel next

def optimizeFix (p : LogicalPlan) : LogicalPlan := optimizeGo 100 p

end Plan

/-! ## Physical planner (`src/engine/src/query/physical_planner.rs`) -/

namespace Phys

open Bind Plan

inductive PhysicalPlan
  | createTable (tableName : String) (columns : List (String × BDataType))
  | insertNode (tableName : String) (colOrdinals : List Nat)
      (values : List BoundExpr)
  | seqScan (tableName : String) (predicate : Option BoundExpr)
  | indexScan (tableName : String) (indexName : String)
      (predicate : BoundExpr)
  | filter (input : PhysicalPlan) (predicate : BoundExpr)
  | projection (input : PhysicalPlan) (exprs : List BoundExpr)
deriving DecidableEq

/-- The `PhysicalPlanner` context: the binder catalog and the storage
catalog indexes it holds references to. -/
structure PhysCtx where
  catalog : Bind.BindTables
  storageIndexes : List (String × List Cat.IndexInfo)
deriving DecidableEq

/-- `PhysicalPlanner::extract_eq_pred`: for `col = lit` (either side)
return the column, operator and the other operand. -/
def extractEqPred (e : BoundExpr) : Option (String × Parse.BinOp × BoundExpr) :=
  match e with
  | .binOp l .opEq r _ =>
      match l with
      | .col _ c _ _ => some (c, .opEq, r)
      | _ =>
          match r with
          | .col _ c _ _ => some (c, .opEq, l)
          | _ => none
  | _ => none

/-- `PhysicalPlanner::plan_node`.  In the SeqScan arm the source
computes `extract_eq_pred` but the index-selection branch is commented
out ("we will skip index optimization"), so the result is discarded and
the plan always falls through to SeqScan (+ Filter). -/
def planNode (ctx : PhysCtx) : LogicalPlan → Except String PhysicalPlan
  | .createTable n cols => .ok (.createTable n cols)
  | .insertNode t ords vals => .ok (.insertNode t ords vals)
  | .seqScan table _alias predicate =>
      let _unused := predicate.map extractEqPred
      let plan0 : PhysicalPlan := .seqScan table none
      .ok (match predicate with
           | some pred => .filter plan0 pred
           | none => plan0)
  | .filter input predicate => do
      let child ← planNode ctx input
      .ok (.filter child predicate)
  | .projection input exprs => do
      let child ← planNode ctx input
      .ok (.projection child exprs)

/-- `PhysicalPlanner::create_physical_plan`: optimize, then lower. -/
def createPhysicalPlan (ctx : PhysCtx) (logical : LogicalPlan) :
    Except String PhysicalPlan :=
  planNode ctx (Plan.optimizeFix logical)

/-- Whether a physical plan contains an IndexScan operator anywhere. -/
def containsIndexScan : PhysicalPlan → Bool
  | .indexScan _ _ _ => true
  | .filter input _ => containsIndexScan input
  | .projection input _ => containsIndexScan input
  | _ => false

end Phys

/-! ## Volcano executor (`src/engine/src/query/executor.rs`).  The
pull-based operators are materialised in pull order; the first error
encountered aborts the whole `Executor::execute`, as in the source. -/

namespace Exec

open Bind Phys Bytes

/-- Interpret 8 little-endian bytes starting at `off` as an `i64`. -/
def i64At (data : List Nat) (off : Nat) : Int :=
  let v := readU64 data off
  if v < 2 ^ 63 then (v : Int) else (v : Int) - 2 ^ 64

/-- `String::from_utf8` restricted to the ASCII rows this development
evaluates (a non-ASCII byte is reported as invalid, as the source does
for genuinely invalid UTF-8). -/
def bytesToStr (bs : List Nat) : Except String String :=
  if bs.all (· < 128) then .ok (String.mk (bs.map Char.ofNat))
  else .error "Invalid UTF-8 in varchar"

/-- `SeqScanOp::deserialize_tuple` (also `IndexScanOp`): reads raw
*untagged* column values — 8 bytes per Int, `u32` length + bytes per
Varchar — guided by the table schema. -/
def deserializeTupleGo : List ColumnMeta → List Nat → Nat →
    Except String (List BValue)
  | [], _, _ => .ok []
  | c :: cs, data, off =>
      match c.dataType with
      | .int =>
          if off + 8 > data.length then
            .error "Insufficient data for int column"
          else do
            let rest ← deserializeTupleGo cs data (off + 8)
            .ok (.vInt (i64At data off) :: rest)
      | .varchar =>
          if off + 4 > data.length then
            .error "Insufficient data for varchar length"
          else
            let len := readU32 data off
            if off + 4 + len > data.length then
              .error "Insufficient data for varchar content"
            else do
              let s ← bytesToStr ((data.drop (off + 4)).take len)
              let rest ← deserializeTupleGo cs data (off + 4 + len)
              .ok (.vStr s :: rest)

def deserializeTuple (cols : List ColumnMeta) (data : List Nat) :
    Except String (List BValue) :=
  deserializeTupleGo cols data 0

/-- `eval_binop`. -/
def evalBinop (l : BValue) (op : Parse.BinOp) (r : BValue) :
    Except String BValue :=
  match l, r, op with
  | .vInt a, .vInt b, .opEq => .ok (.vInt (if a = b then 1 else 0))
  | .vInt a, .vInt b, .opLt => .ok (.vInt (if a < b then 1 else 0))
  | .vInt a, .vInt b, .opGt => .ok (.vInt (if a > b then 1 else 0))
  | .vStr a, .vStr b, .opEq => .ok (.vInt (if a = b then 1 else 0))
  | _, _, _ => .error "Unsupported binary op or mismatched types"

/-- `eval_expr` (column ordinal indexes the tuple; the source indexes
`row[*ordinal]` directly — bound-checked inputs only reach here). -/
def evalExpr (row : List BValue) : BoundExpr → Except String BValue
  | .lit v => .ok v
  | .col _ _ ord _ => .ok (row.getD ord (.vInt 0))
  | .binOp l op r _ => do
      let lv ← evalExpr row l
      let rv ← evalExpr row r
      evalBinop lv op rv

/-- `eval_predicate`: Int truthiness is ≠ 0, String truthiness is
non-empty. -/
def evalPredicate (pred : BoundExpr) (row : List BValue) :
    Except String Bool :=
  match evalExpr row pred with
  | .error e => .error e
  | .ok (.vInt i) => .ok (i ≠ 0)
  | .ok (.vStr s) => .ok (s ≠ "")

/-- `SeqScanOp::next` repeated until exhaustion: fetch, deserialize,
apply the embedded predicate. -/
def seqScanNextAll (file : List (List Nat)) (cols : List ColumnMeta)
    (pred : Option BoundExpr) :
    List Record.RID → Except String (List (List BValue))
  | [] => .ok []
  | rid :: rest => do
      let raw ← Store.fetch file rid
      let tup ← deserializeTuple cols raw
      let keep ← (match pred with
        | some p => evalPredicate p tup
        | none => .ok true)
      let tail ← seqScanNextAll file cols pred rest
      .ok (if keep then tup :: tail else tail)

/-- `SeqScanOp` open + drain: table lookup in the binder catalog, then
every non-tombstone slot of every page of the file. -/
def seqScanExec (file : List (List Nat)) (ts : BindTables) (table : String)
    (pred : Option BoundExpr) : Except String (List (List BValue)) := do
  let meta ← bcGetTable ts table
  seqScanNextAll file meta.columns pred (Store.seqScanRids file)

/-- `FilterOp` drain. -/
def filterRows (p : BoundExpr) :
    List (List BValue) → Except String (List (List BValue))
  | [] => .ok []
  | r :: rest => do
      let keep ← evalPredicate p r
      let tail ← filterRows p rest
      .ok (if keep then r :: tail else tail)

/-- The operator tree built by the server (`build` in `server.rs`) and
drained by `Executor::execute`.  `build` supports only SeqScan, Filter
and Projection; any other physical node hits `unimplemented!` (a
panic), modelled as an error. -/
def runPhysical (file : List (List Nat)) (ts : BindTables) :
    PhysicalPlan → Except String (List (List BValue))
  | .seqScan t pred => seqScanExec file ts t pred
  | .filter input p => do
      let rows ← runPhysical file ts input
      filterRows p rows
  | .projection input es => do
      let rows ← runPhysical file ts input
      rows.mapM fun r => es.mapM fun e => evalExpr r e
  | _ => .error "unimplemented physical operator"

end Exec

/-! ## The `/query` statement path (`src/engine/src/net/server.rs`,
`handle_request` and `create_executor_from_statement`).

The model covers the statement dispatch after authentication, recovery
and body parsing: the HTTP status each arm attaches to its response is
recorded exactly as the `Response::builder().status(...)` calls
construct it.  (On the failure arms the source then calls `.unwrap()` on
the `Err` carrying that response, which panics; the response modelled
here is the one the arm builds.)  WAL begin/commit and lock acquisition
cannot fail in this pure model, matching the in-memory happy path. -/

namespace Srv

open Lex Parse Bind

structure SrvState where
  tables : Cat.CatTables
  indexes : List (String × List Cat.IndexInfo)
  file : List (List Nat)
  pageSize : Nat
deriving DecidableEq

inductive SrvResp
  | okRows (rows : List (List String))
  | errResp (status : Nat) (msg : String)
deriving DecidableEq

def statusOf : SrvResp → Nat
  | .okRows _ => 200
  | .errResp s _ => s

/-- Value rendering in the response rows. -/
def renderValue : BValue → String
  | .vInt i => toString i
  | .vStr s => s

/-- `indexes.entry(table).or_insert_with(Vec::new).push(info)`. -/
def addIndex (m : List (String × List Cat.IndexInfo)) (table : String)
    (info : Cat.IndexInfo) : List (String × List Cat.IndexInfo) :=
  match m.lookup table with
  | some l => (table, l ++ [info]) :: m.filter fun p => p.1 != table
  | none => (table, [info]) :: m

/-- `Storage::create_index`: validate the table, allocate a fresh page,
write an empty leaf node header there, register the index.  (Free-list
registration is a no-op here: the new page has 0 tracked free bytes.) -/
def storageCreateIndex (st : SrvState) (table column ixName : String)
    (order : Nat) : Except String SrvState :=
  match Cat.getTable st.tables table with
  | .error e => .error e
  | .ok _ =>
      let root := st.file.length
      let page := Bytes.writeBytes (List.replicate st.pageSize 0) 0 [1]
      let info : Cat.IndexInfo := ⟨ixName, table, column, order, root⟩
      .ok { st with
              file := st.file ++ [page]
              indexes := addIndex st.indexes table info }

/-- `create_executor_from_statement`: a *fresh, empty* binder catalog is
constructed per request (`BinderCatalog::new()` in `handle_request`),
then bind → logical plan → optimize → optimize again inside
`create_physical_plan` → physical plan. -/
def createExecutor (st : SrvState) (stmt : Parse.Stmt) :
    Except String (Phys.PhysicalPlan × BindTables) := do
  let bt : BindTables := []
  let bs ← Bind.bind bt stmt
  let logical ← Plan.plan bs.2 bs.1
  let optimized := Plan.optimizeFix logical
  let phys ← Phys.createPhysicalPlan ⟨bs.2, st.indexes⟩ optimized
  .ok (phys, bs.2)

/-- Statement dispatch of the `/query` arm after parsing. -/
def handleStmt (st : SrvState) (stmt : Parse.Stmt) : SrvState × SrvResp :=
  match stmt with
  | .createTable name cols =>
      let infos := cols.map fun ct =>
        (⟨ct.1,
          if eqIgnoreAsciiCase ct.2 "INT" then Cat.SDataType.int
          else Cat.SDataType.str⟩ : Cat.SColumnInfo)
      match Cat.createTable st.tables name infos with
      | .error _ => (st, .errResp 500 "CREATE TABLE failed")
      | .ok ts2 => ({ st with tables := ts2 }, .okRows [])
  | .createIndex ixName table column =>
      match storageCreateIndex st table column ixName 4 with
      | .error _ => (st, .errResp 500 "CREATE INDEX failed")
      | .ok st2 => (st2, .okRows [])
  | other =>
      match createExecutor st other with
      | .error _ => (st, .errResp 500 "Build error")
      | .ok pb =>
          match Exec.runPhysical st.file pb.2 pb.1 with
          | .error _ => (st, .errResp 500 "Exec error")
          | .ok rows => (st, .okRows (rows.map fun r => r.map renderValue))

/-- One `/query` request with an already-tokenised SQL text: parse
failures produce the 400 response, everything else goes to
`handleStmt`. -/
def handleSql (st : SrvState) (tokens : List TokenKind) :
    SrvState × SrvResp :=
  match parseStmt tokens with
  | .error _ => (st, .errResp 400 "Parse error")
  | .ok stmt => handleStmt st stmt

/-- A sequence of requests against one server. -/
def handleSeq (st : SrvState) :
    List (List TokenKind) → SrvState × List SrvResp
  | [] => (st, [])
  | t :: rest =>
      let r := handleSql st t
      let r2 := handleSeq r.1 rest
      (r2.1, r.2 :: r2.2)

/-- Fresh server state (empty catalog, empty data file). -/
def initSrv : SrvState := ⟨[], [], [], 4096⟩

/-- Token stream of `CREATE TABLE users(id INT, name VARCHAR);` as the
lexer produces it (identifiers pass through `identOrKeyword`). -/
def tokCreateUsers : List TokenKind :=
  [identOrKeyword "CREATE", identOrKeyword "TABLE", identOrKeyword "users",
   .lparen, identOrKeyword "id", identOrKeyword "INT", .comma,
   identOrKeyword "name", identOrKeyword "VARCHAR", .rparen, .semicolon,
   .eof]

/-- Token stream of `INSERT INTO users(id,name) VALUES (1,'alice');`. -/
def tokInsertAlice : List TokenKind :=
  [identOrKeyword "INSERT", identOrKeyword "INTO", identOrKeyword "users",
   .lparen, identOrKeyword "id", .comma, identOrKeyword "name", .rparen,
   identOrKeyword "VALUES", .lparen, .intLit 1, .comma, .stringLit "alice",
   .rparen, .semicolon, .eof]

/-- Token stream of `SELECT id, name FROM users;`. -/
def tokSelectUsers : List TokenKind :=
  [identOrKeyword "SELECT", identOrKeyword "id", .comma,
   identOrKeyword "name", identOrKeyword "FROM", identOrKeyword "users",
   .semicolon, .eof]

end Srv

/-! ## B+Tree (`src/engine/src/index/*`).

Node pages are modelled at the granularity the serializers read and
write.  Leaf pages round-trip structurally (`LeafNodeSerializer`
always writes `key_count` keys and rids).  Internal pages are kept in
their *serialized* form: the header `key_count` plus the list of 8-byte
words written after the header — the keys slice followed by the
children slice, exactly as `InternalNodeSerializer::serialize` lays
them out (it writes every element of both slices, whatever
`key_count` says).  `InternalNodeSerializer::deserialize` then reads
`key_count` keys and `key_count + 1` children by position; positions
past the written words read the page's zero fill.  A freshly allocated
zero page deserializes as an internal node with `key_count = 0`
(node-type byte 0 = Internal). -/

namespace BT

inductive NodePage
  | leaf (parent : Nat) (keys : List Nat) (rids : List Record.RID)
      (nextLeaf : Nat)
  | internalRaw (keyCount : Nat) (parent : Nat) (words : List Nat)
deriving DecidableEq

/-- The keys `InternalNodeSerializer::deserialize` reads. -/
def internalKeys (kc : Nat) (words : List Nat) : List Nat :=
  (List.range kc).map fun i => words.getD i 0

/-- The children `InternalNodeSerializer::deserialize` reads (the
`kc + 1` words following the keys region). -/
def internalChildren (kc : Nat) (words : List Nat) : List Nat :=
  (List.range (kc + 1)).map fun i => words.getD (kc + i) 0

/-- `BufferPool::fetch_page` + node deserialization source. -/
def fetchNode (store : List NodePage) (pageNo : Nat) :
    Except String NodePage :=
  match store[pageNo]? with
  | some n => .ok n
  | none => .error "UnexpectedEof"

/-- `PageFile::allocate_page`: append a zero page; it reads back as an
empty internal node. -/
def allocatePage (store : List NodePage) : Nat × List NodePage :=
  (store.length, store ++ [.internalRaw 0 0 []])

/-- `slice::binary_search` on a sorted slice: classic two-pointer
bisection; `.inl i` is `Ok(i)` (found), `.inr i` is `Err(i)`
(insertion point). -/
def binSearchGo : Nat → List Nat → Nat → Nat → Nat → Sum Nat Nat
  | 0, _, _, left, _ => .inr left
  | fuel + 1, l, key, left, right =>
      if left < right then
        let mid := left + (right - left) / 2
        let v := l.getD mid 0
        if v < key then binSearchGo fuel l key (mid + 1) right
        else if key < v then binSearchGo fuel l key left mid
        else .inl mid
      else .inr left

def binSearch (l : List Nat) (key : Nat) : Sum Nat Nat :=
  binSearchGo (l.length + 1) l key 0 l.length

/-- `BPlusTreeSearch::search_path`: descend from the root, pushing every
page visited; at internal nodes binary-search the keys, taking child
`i + 1` on an exact hit and child `i` (the insertion point) otherwise.
Fuel guards the source's unbounded loop (a corrupt cycle would spin
forever there; here it errors). -/
def searchPath : Nat → List NodePage → Nat → Nat → Except String (List Nat)
  | 0, _, _, _ => .error "search fuel exhausted"
  | fuel + 1, store, current, key => do
      let node ← fetchNode store current
      match node with
      | .leaf _ _ _ _ => .ok [current]
      | .internalRaw kc _ words =>
          let keys := internalKeys kc words
          let children := internalChildren kc words
          let idx := (match binSearch keys key with
            | .inl i => i + 1
            | .inr i => i)
          let next := children.getD idx 0
          let rest ← searchPath fuel store next key
          .ok (current :: rest)

/-- `NodeModifier::insert_into_parent`. -/
def insertIntoParent : Nat → List NodePage → List Nat → Nat → Nat → Nat →
    Nat → Nat → Except String (List NodePage × Nat)
  | 0, _, _, _, _, _, _, _ => .error "split fuel exhausted"
  | fuel + 1, store, path, rootPage, order, leftPage, splitKey, rightPage =>
      if leftPage = rootPage then
        -- new internal root with one key and two children
        let alloc := allocatePage store
        let newRoot := alloc.1
        let node := NodePage.internalRaw 1 0 ([splitKey] ++ [leftPage, rightPage])
        .ok (alloc.2.set newRoot node, newRoot)
      else do
        -- the source indexes the cached path at len - 2 at every
        -- recursion depth
        let parentPage := path.getD (path.length - 2) 0
        let node ← fetchNode store parentPage
        match node with
        | .leaf _ _ _ _ => .error "Internal deserialize failed"
        | .internalRaw kc _ words =>
            let keys := internalKeys kc words
            let children := internalChildren kc words
            if splitKey ∈ keys then
              .error "Duplicate key insertion not allowed in internal node"
            else do
              -- idx = children.position(left_page).unwrap() + 1
              let idx0 ← (match children.indexOf? leftPage with
                | some i => .ok (i + 1)
                | none => .error "left child not found in parent")
              let keys2 := keys.take (idx0 - 1) ++ [splitKey] ++
                keys.drop (idx0 - 1)
              let children2 := children.take idx0 ++ [rightPage] ++
                children.drop idx0
              let kc2 := kc + 1
              let parentHdr := path.getD (path.length - 3) 0
              if kc2 ≤ order then
                .ok (store.set parentPage
                      (.internalRaw kc2 parentHdr (keys2 ++ children2)),
                     rootPage)
              else
                let mid := kc2 / 2
                let promoteKey := keys2.getD mid 0
                -- keys.split_off(mid + 1): the retained left slice still
                -- holds keys2[mid] (the promoted key); only the header
                -- count is set to mid
                let leftKeys := keys2.take (mid + 1)
                let rightKeys := keys2.drop (mid + 1)
                let leftChildren := children2.take (mid + 1)
                let rightChildren := children2.drop (mid + 1)
                let store1 := store.set parentPage
                  (.internalRaw mid parentHdr (leftKeys ++ leftChildren))
                let alloc := allocatePage store1
                let rightPage2 := alloc.1
                let store3 := alloc.2.set rightPage2
                  (.internalRaw rightKeys.length parentHdr
                    (rightKeys ++ rightChildren))
                insertIntoParent fuel store3 path rootPage order parentPage
                  promoteKey rightPage2

/-- `NodeModifier::insert_into_leaf`. -/
def insertIntoLeaf (store : List NodePage) (path : List Nat)
    (rootPage order leafPage key : Nat) (rid : Record.RID) :
    Except String (List NodePage × Nat) := do
  let node ← fetchNode store leafPage
  match node with
  | .internalRaw _ _ _ => .error "Leaf deserialize failed"
  | .leaf _ keys rids nextLeaf =>
      match binSearch keys key with
      | .inl _ => .error "Duplicate key insertion not allowed"
      | .inr idx =>
          let keys2 := keys.take idx ++ [key] ++ keys.drop idx
          let rids2 := rids.take idx ++ [rid] ++ rids.drop idx
          -- header.parent := path[len.saturating_sub(2)]
          let parent2 := path.getD (path.length - 2) 0
          if keys2.length ≤ order then
            .ok (store.set leafPage (.leaf parent2 keys2 rids2 nextLeaf),
                 rootPage)
          else
            let mid := (keys2.length + 1) / 2
            let leftKeys := keys2.take mid
            let rightKeys := keys2.drop mid
            let leftRids := rids2.take mid
            let rightRids := rids2.drop mid
            let splitKey := rightKeys.getD 0 0
            let alloc := allocatePage store
            let rightPage := alloc.1
            let store2 := alloc.2.set leafPage
              (.leaf parent2 leftKeys leftRids rightPage)
            let store3 := store2.set rightPage
              (.leaf parent2 rightKeys rightRids nextLeaf)
            insertIntoParent (path.length + 1) store3 path rootPage order
              leafPage splitKey rightPage

/-- `NodeModifier::insert` / `BPlusTree::insert`: locate the leaf along
the cached path, insert, propagate splits; returns the updated store and
the (possibly new) root page. -/
def insertKey (store : List NodePage) (rootPage order key : Nat)
    (rid : Record.RID) : Except String (List NodePage × Nat) := do
  let path ← searchPath (store.length + 1) store rootPage key
  let leafPage := path.getLastD 0
  insertIntoLeaf store path rootPage order leafPage key rid

/-- `BPlusTree::get`. -/
def getRid (store : List NodePage) (rootPage key : Nat) :
    Except String (Option Record.RID) := do
  let path ← searchPath (store.length + 1) store rootPage key
  let leafPage := path.getLastD 0
  let node ← fetchNode store leafPage
  match node with
  | .internalRaw _ _ _ => .error "leaf node expected"
  | .leaf _ keys rids _ =>
      match keys.indexOf? key with
      | some i => .ok (some (rids.getD i (0, 0)))
      | none => .ok none

/-- The per-leaf collection loop of `range_scan_keys`: push pairs with
`lo ≤ k ≤ hi`, stopping at the first key above `hi`. -/
def collectLeaf : List Nat → List Record.RID → Nat → Nat →
    List (Nat × Record.RID)
  | [], _, _, _ => []
  | _ :: _, [], _, _ => []
  | k :: ks, r :: rs, lo, hi =>
      if hi < k then []
      else (if lo ≤ k then [(k, r)] else []) ++ collectLeaf ks rs lo hi

/-- `BPlusTree::range_scan_keys`: walk the `next_leaf` chain from the
leaf located for `lo` (the source follows the chain to its end, only
stopping at `next_leaf == 0`). -/
def rangeScanGo : Nat → List NodePage → Nat → Nat → Nat →
    Except String (List (Nat × Record.RID))
  | 0, _, _, _, _ => .error "range fuel exhausted"
  | fuel + 1, store, leafPage, lo, hi => do
      let node ← fetchNode store leafPage
      match node with
      | .internalRaw _ _ _ => .error "leaf node expected"
      | .leaf _ keys rids next =>
          let pairs := collectLeaf keys rids lo hi
          if next = 0 then .ok pairs
          else do
            let rest ← rangeScanGo fuel store next lo hi
            .ok (pairs ++ rest)

def rangeScanKeys (store : List NodePage) (rootPage lo hi : Nat) :
    Except String (List (Nat × Record.RID)) := do
  let path ← searchPath (store.length + 1) store rootPage lo
  rangeScanGo (store.length + 1) store (path.getLastD 0) lo hi

/-- `BPlusTree::new`: a single empty root leaf on page 0. -/
def freshTree : List NodePage := [.leaf 0 [] [] 0]

/-- Insert a list of keys in order, each with RID `(key, 0)`, threading
store and root. -/
def insertAll (store : List NodePage) (root order : Nat) :
    List Nat → Except String (List NodePage × Nat)
  | [] => .ok (store, root)
  | k :: ks => do
      let r ← insertKey store root order k (k, 0)
      insertAll r.1 r.2 order ks

end BT

/-! ## Scenario fixtures used by the claim theorems below -/

/-- The physical-planner predicate `ID = 2` on table USERS. -/
def c4pred : Bind.BoundExpr :=
  .binOp (.col "USERS" "ID" 0 .int) .opEq (.lit (.vInt 2)) .int

/-- A matching single-column index on USERS(ID). -/
def c4index : Cat.IndexInfo := ⟨"IX", "USERS", "ID", 4, 7⟩

/-- Planner context whose storage catalog holds that index. -/
def c4ctx : Phys.PhysCtx :=
  ⟨[("users", ⟨"USERS", [⟨"ID", .int, 0⟩], [("id", 0)]⟩)],
   [("USERS", [c4index])]⟩

/-- A LogManager state after `log_begin(1)` and one `log_update(1, _)`. -/
def c5demo : Wal.LogMgrState :=
  (Wal.logUpdate (Wal.logBegin Wal.initState 1).2 1 [1, 2, 3]).2

/-- Two single-row slotted pages (one per table). -/
def c6build : Except String (List (List Nat)) := do
  let a ← Record.insertTuple (Record.pageNew 0 32) [7]
  let b ← Record.insertTuple (Record.pageNew 1 32) [9]
  .ok [a.1, b.1]

def c6file : List (List Nat) :=
  match c6build with
  | .ok f => f
  | .error _ => []

/-- Page 1 of `c6file` (the second table's page). -/
def c6pageB : List Nat := c6file.getD 1 []

/-- Table A of the two-table database: its `records` directory holds
only the row on page 0. -/
def c6tableA : Cat.STableInfo := ⟨"A", [⟨"X", .int⟩], [(0, 0)]⟩

/-- Lock state reached from empty by `lock(1, r, S)` then
`lock(2, r, X)` (tx 2 queued). -/
def c8state : Lock.LockState := ⟨[(1, .shared)], [⟨2, .exclusive⟩]⟩

/-- A one-row page (tuple bytes `[7]` in slot 0). -/
def c10page : List Nat :=
  match Record.insertTuple (Record.pageNew 0 32) [7] with
  | .ok pr => pr.1
  | .error _ => []

/-- `c10page` after `delete_tuple(0)`. -/
def c10deleted : List Nat :=
  match Record.deleteTuple c10page 0 with
  | .ok d => d
  | .error _ => []

end MyDb

/-! ## Helper lemmas -/

namespace MyDb.Bytes

theorem writeBytes_length (bs : List Nat) :
    ∀ (d : List Nat) (i : Nat), (writeBytes d i bs).length = d.length := by
  induction bs with
  | nil => intro d i; rfl
  | cons b bs ih =>
      intro d i
      simp [writeBytes, writeByte, ih]

/-- Bytes strictly before the write window are untouched. -/
theorem readByte_writeBytes_lt (bs : List Nat) :
    ∀ (d : List Nat) (i k : Nat), k < i →
      readByte (writeBytes d i bs) k = readByte d k := by
  induction bs with
  | nil => intro d i k _; rfl
  | cons b bs ih =>
      intro d i k hk
      rw [writeBytes, ih _ _ _ (Nat.lt_succ_of_lt hk)]
      simp [readByte, writeByte, List.getElem?_set_ne (by omega : i ≠ k)]

/-- Bytes at or beyond the end of the write window are untouched. -/
theorem readByte_writeBytes_ge (bs : List Nat) :
    ∀ (d : List Nat) (i k : Nat), i + bs.length ≤ k →
      readByte (writeBytes d i bs) k = readByte d k := by
  induction bs with
  | nil => intro d i k _; rfl
  | cons b bs ih =>
      intro d i k hk
      simp only [List.length_cons] at hk
      rw [writeBytes, ih _ _ _ (by omega)]
      have hne : i ≠ k := by omega
      simp [readByte, writeByte, List.getElem?_set_ne hne]

/-- A byte inside the write window reads back as the written value
(provided the window is inside the buffer). -/
theorem readByte_writeBytes_get (bs : List Nat) :
    ∀ (d : List Nat) (i j : Nat), j < bs.length → i + bs.length ≤ d.length →
      readByte (writeBytes d i bs) (i + j) = bs.getD j 0 % 256 := by
  induction bs with
  | nil => intro d i j h _; simp at h
  | cons b bs ih =>
      intro d i j hj hlen
      simp only [List.length_cons] at hj hlen
      cases j with
      | zero =>
          rw [writeBytes, show i + 0 = i by omega,
            readByte_writeBytes_lt _ _ _ _ (Nat.lt_succ_self i)]
          have hi : i < d.length := by omega
          simp [readByte, writeByte, List.getElem?_set_eq_of_lt _ hi]
      | succ j =>
          have := ih (writeByte d i b) (i + 1) j (by omega)
            (by simp [writeByte]; omega)
          rw [writeBytes, show i + (j + 1) = (i + 1) + j by omega, this]
          rfl

end MyDb.Bytes

namespace MyDb

/-- Appending one element larger than everything keeps the list
strictly increasing. -/
theorem strictIncr_append_singleton (l : List Nat) (b : Nat)
    (hc : Wal.strictIncr l = true) (hb : ∀ x ∈ l, x < b) :
    Wal.strictIncr (l ++ [b]) = true := by
  induction l with
  | nil => rfl
  | cons a t ih =>
      cases t with
      | nil =>
          simp only [List.cons_append, List.nil_append, Wal.strictIncr,
            Bool.and_eq_true, decide_eq_true_eq]
          exact ⟨hb a (by simp), trivial⟩
      | cons a2 t2 =>
          simp only [Wal.strictIncr, Bool.and_eq_true,
            decide_eq_true_eq] at hc
          have ht : Wal.strictIncr ((a2 :: t2) ++ [b]) = true :=
            ih hc.2 (fun x hx => hb x (List.mem_cons_of_mem a hx))
          simp only [List.cons_append, Wal.strictIncr] at ht ⊢
          simp only [Bool.and_eq_true, decide_eq_true_eq]
          exact ⟨hc.1, ht⟩

/-- A slot that deserializes to a tuple is below `slot_count`. -/
theorem getTuple_some_lt (page : List Nat) (s : Nat) (t : List Nat)
    (h : Record.getTuple page s = some t) : s < Record.slotCount page := by
  unfold Record.getTuple at h
  split at h
  · cases h
  · rename_i hns
    omega

end MyDb

/-! ## Claim theorems -/

open MyDb in
/-- Claim C1: the spec says the redo pass writes exactly the
after-image (the second of the two equal-length payload images) at the
recorded offset, touching no other bytes.  The code instead takes
`payload[12..]` — before-image followed by after-image — and writes
both at the offset: on a one-page file `[5,6,7,8]` and an Update
payload with `offset = 1`, `before = [170]`, `after = [187]`, the code
produces `[5,170,187,8]` (the before-image lands at the offset and the
byte beyond the claimed region changes) while the claimed behaviour
produces `[5,187,7,8]`. -/
theorem C1_redo_writes_before_and_after_images :
    Recovery.redoUpdateStep [[5, 6, 7, 8]] [0]
        (Bytes.u64Bytes 0 ++ Bytes.u32Bytes 1 ++ [170, 187]) =
      .ok [[5, 170, 187, 8]] ∧
    Recovery.redoUpdateStepSpec [[5, 6, 7, 8]]
        (Bytes.u64Bytes 0 ++ Bytes.u32Bytes 1 ++ [170, 187]) =
      .ok [[5, 187, 7, 8]] ∧
    ([[5, 170, 187, 8]] : List (List Nat)) ≠ [[5, 187, 7, 8]] := by
  refine ⟨by decide, by decide, by decide⟩

open MyDb in
/-- Claim C2: inserting the pairwise-distinct keys 1..17 (with RIDs
`(k, 0)`) into a fresh order-4 B+Tree succeeds at every step and forces
an internal-node split, after which `get(5)` returns `None` instead of
`Some (5, 0)`: the split leaves the promoted key in the left half's key
slice while setting the header count to `mid`, so the serialized
children region is shifted by one word and traversal descends into the
wrong pages. -/
theorem C2_internal_split_corrupts_lookup :
    (do
      let r ← BT.insertAll BT.freshTree 0 4 (List.range' 1 17)
      BT.getRid r.1 r.2 5 : Except String (Option Record.RID)) = .ok none ∧
    (Except.ok none : Except String (Option Record.RID)) ≠
      .ok (some (5, 0)) := by
  refine ⟨by decide, by decide⟩

open MyDb in
/-- Claim C3: the spec scenario S1 (CREATE TABLE users, INSERT a row,
SELECT it back) is expected to succeed with the row rendered as
`[["1","alice"]]`.  On the code, CREATE TABLE succeeds, but the INSERT
and the SELECT both fail at binding with status 500: the server
constructs a fresh, empty binder catalog for every request, so no
INSERT or SELECT can ever resolve a table. -/
theorem C3_statement_pipeline_fails_on_insert :
    (Srv.handleSeq Srv.initSrv
        [Srv.tokCreateUsers, Srv.tokInsertAlice, Srv.tokSelectUsers]).2 =
      [.okRows [], .errResp 500 "Build error", .errResp 500 "Build error"] ∧
    ([Srv.SrvResp.okRows [], .errResp 500 "Build error",
        .errResp 500 "Build error"] : List Srv.SrvResp) ≠
      [.okRows [], .okRows [], .okRows [["1", "alice"]]] := by
  refine ⟨by decide, by decide⟩

open MyDb in
/-- Claim C4 counterexample: with a single-column index on USERS(ID) in
the storage catalog and the predicate `ID = 2`, the physical planner
still emits `Filter(SeqScan)` — not the `IndexScan` the claim
requires — because the index-selection branch is commented out. -/
theorem C4_counterexample_index_ignored :
    Phys.planNode c4ctx (.seqScan "USERS" none (some c4pred)) =
      .ok (.filter (.seqScan "USERS" none) c4pred) ∧
    c4ctx.storageIndexes.lookup "USERS" = some [c4index] ∧
    Phys.containsIndexScan (.filter (.seqScan "USERS" none) c4pred) =
      false := by
  refine ⟨by decide, by decide, by decide⟩

open MyDb in
/-- Claim C4 amended: the physical planner never emits IndexScan for
any logical plan, whatever indexes exist; every scan lowers to SeqScan
(wrapped in Filter when a predicate exists). -/
theorem C4_amended_never_emits_indexscan (ctx : Phys.PhysCtx)
    (lp : Plan.LogicalPlan) (pp : Phys.PhysicalPlan)
    (h : Phys.planNode ctx lp = .ok pp) :
    Phys.containsIndexScan pp = false := by
  induction lp generalizing pp with
  | createTable n cols =>
      simp only [Phys.planNode, Except.ok.injEq] at h
      subst h; rfl
  | insertNode t ords vals =>
      simp only [Phys.planNode, Except.ok.injEq] at h
      subst h; rfl
  | seqScan table aliasName predicate =>
      cases predicate with
      | none =>
          simp only [Phys.planNode, Except.ok.injEq] at h
          subst h; rfl
      | some pred =>
          simp only [Phys.planNode, Except.ok.injEq] at h
          subst h; rfl
  | filter input predicate ih =>
      cases hc : Phys.planNode ctx input with
      | error e => simp [Phys.planNode, hc, bind, Except.bind] at h
      | ok child =>
          simp only [Phys.planNode, hc, bind, Except.bind,
            Except.ok.injEq] at h
          subst h
          simpa [Phys.containsIndexScan] using ih child hc
  | projection input exprs ih =>
      cases hc : Phys.planNode ctx input with
      | error e => simp [Phys.planNode, hc, bind, Except.bind] at h
      | ok child =>
          simp only [Phys.planNode, hc, bind, Except.bind,
            Except.ok.injEq] at h
          subst h
          simpa [Phys.containsIndexScan] using ih child hc

open MyDb in
/-- Witness for C4: the amended theorem applied to the concrete indexed
scan of the counterexample scenario. -/
theorem C4_amended_never_emits_indexscan_witness :
    Phys.containsIndexScan (.filter (.seqScan "USERS" none) c4pred) =
      false :=
  C4_amended_never_emits_indexscan c4ctx
    (.seqScan "USERS" none (some c4pred))
    (.filter (.seqScan "USERS" none) c4pred) (by decide)

open MyDb in
/-- Claim C7 counterexample: the second of two identical CREATE TABLE
statements fails in the storage catalog and the server arm attaches
status 500 ("CREATE TABLE failed") to the failure — not the 400 the
claim requires for binding-stage failures such as a duplicate table. -/
theorem C7_counterexample_bind_failure_is_500 :
    (Srv.handleSeq Srv.initSrv [Srv.tokCreateUsers, Srv.tokCreateUsers]).2 =
      [.okRows [], .errResp 500 "CREATE TABLE failed"] ∧
    Srv.statusOf (.errResp 500 "CREATE TABLE failed") = 500 ∧
    (500 : Nat) ≠ 400 := by
  refine ⟨by decide, by decide, by decide⟩

open MyDb in
/-- Claim C8 counterexample: from the empty lock state, tx 1 takes S and
tx 2 queues for X; a later S request by tx 3 is granted immediately
(`can_grant` never consults the queue), overtaking the earlier queued
exclusive request — refuting strict FIFO admission. -/
theorem C8_counterexample_later_shared_granted :
    (Lock.lockStep ⟨[], []⟩ 1 .shared).1 = ⟨[(1, .shared)], []⟩ ∧
    (Lock.lockStep ⟨[(1, .shared)], []⟩ 2 .exclusive).1 = c8state ∧
    c8state.queue ≠ [] ∧
    (Lock.lockStep c8state 3 .shared).2 = true ∧
    (Lock.lockStep c8state 3 .shared).1.holders =
      [(1, .shared), (3, .shared)] ∧
    (Lock.lockStep c8state 3 .shared).1.queue = [⟨2, .exclusive⟩] := by
  refine ⟨by decide, by decide, by decide, by decide, by decide, by decide⟩

open MyDb in
/-- Claim C9 counterexample: `Catalog::create_table` / `get_table` use
exact `HashMap` string keys, so after creating "users" a lookup of
"USERS" fails and a second create under "USERS" succeeds; and the lexer
uppercases identifiers rather than preserving the user's casing. -/
theorem C9_counterexample_catalog_case_sensitive :
    Cat.createTable [] "users" [⟨"id", .int⟩] =
      .ok [("users", ⟨"users", [⟨"id", .int⟩], []⟩)] ∧
    Cat.getTable [("users", ⟨"users", [⟨"id", .int⟩], []⟩)] "USERS" =
      .error "Table not found" ∧
    (Cat.createTable [("users", ⟨"users", [⟨"id", .int⟩], []⟩)] "USERS"
        [⟨"id", .int⟩]).isOk = true ∧
    Lex.identOrKeyword "users" = .identifier "USERS" ∧
    Lex.TokenKind.identifier "USERS" ≠ .identifier "users" := by
  refine ⟨by decide, by decide, by decide, by decide, by decide⟩

open MyDb in
/-- Claim C5: when `log_commit(tx)` returns, the in-memory buffer has
been fully drained — every buffered record has LSN ≤ the commit LSN —
and those records followed by the commit record sit on the WAL file in
strictly increasing LSN order (`flush` performed `write_all` plus
`sync_data` on exactly this file content before returning). -/
theorem C5_log_commit_durable (s : Wal.LogMgrState) (tx : Nat)
    (h : Wal.wfState s) :
    (Wal.logCommit s tx).1 = s.nextLsn ∧
    (Wal.logCommit s tx).2.buffer = [] ∧
    (Wal.logCommit s tx).2.fileRecs =
      (s.fileRecs ++ s.buffer) ++ [Wal.commitRec s tx] ∧
    (∀ r ∈ s.buffer, r.lsn ≤ (Wal.logCommit s tx).1 ∧
        r ∈ (Wal.logCommit s tx).2.fileRecs) ∧
    Wal.strictIncr
      ((Wal.logCommit s tx).2.fileRecs.map (·.lsn)) = true := by
  obtain ⟨hchain, hlt⟩ := h
  have hball : ∀ r ∈ s.buffer ++ [Wal.commitRec s tx],
      decide (r.lsn ≤ s.nextLsn) = true := by
    intro r hr
    rcases List.mem_append.mp hr with hr | hr
    · exact decide_eq_true
        (Nat.le_of_lt (hlt r (List.mem_append.mpr (Or.inr hr))))
    · simp only [List.mem_singleton] at hr
      subst hr
      exact decide_eq_true (Nat.le_refl _)
  have hbuf : (Wal.logCommit s tx).2.buffer = [] := by
    show List.dropWhile _ (s.buffer ++ [Wal.commitRec s tx]) = []
    exact List.dropWhile_eq_nil_iff.mpr hball
  have hfile : (Wal.logCommit s tx).2.fileRecs =
      (s.fileRecs ++ s.buffer) ++ [Wal.commitRec s tx] := by
    show s.fileRecs ++
        List.takeWhile _ (s.buffer ++ [Wal.commitRec s tx]) =
      (s.fileRecs ++ s.buffer) ++ [Wal.commitRec s tx]
    simp only [show (Wal.appendRecord s tx Wal.RecType.rCommit []).1 =
      s.nextLsn from rfl]
    rw [List.takeWhile_eq_self_iff.mpr hball, List.append_assoc]
  refine ⟨rfl, hbuf, hfile, ?_, ?_⟩
  · intro r hr
    refine ⟨Nat.le_of_lt (hlt r (List.mem_append.mpr (Or.inr hr))), ?_⟩
    rw [hfile]
    exact List.mem_append.mpr
      (Or.inl (List.mem_append.mpr (Or.inr hr)))
  · rw [hfile, List.map_append]
    refine strictIncr_append_singleton _ _ hchain ?_
    intro x hx
    rcases List.mem_map.mp hx with ⟨r, hr, hxr⟩
    subst hxr
    exact hlt r hr

open MyDb in
/-- Witness for C5: the theorem applied to the state holding a buffered
Begin and Update record of transaction 1. -/
theorem C5_log_commit_durable_witness :
    (Wal.logCommit c5demo 1).1 = c5demo.nextLsn ∧
    (Wal.logCommit c5demo 1).2.buffer = [] ∧
    (Wal.logCommit c5demo 1).2.fileRecs =
      (c5demo.fileRecs ++ c5demo.buffer) ++ [Wal.commitRec c5demo 1] ∧
    (∀ r ∈ c5demo.buffer, r.lsn ≤ (Wal.logCommit c5demo 1).1 ∧
        r ∈ (Wal.logCommit c5demo 1).2.fileRecs) ∧
    Wal.strictIncr
      ((Wal.logCommit c5demo 1).2.fileRecs.map (·.lsn)) = true :=
  C5_log_commit_durable c5demo 1 (by decide)

open MyDb in
/-- Claim C6 counterexample: a database with two one-row tables (table
A's row on page 0, table B's row on page 1).  `SeqScanOp::open` on
table A enumerates the RIDs of *both* pages, including `(1, 0)`, which
is not in table A's records directory — and the scanned bytes `[9]` are
table B's row. -/
theorem C6_counterexample_scan_crosses_tables :
    c6build = .ok c6file ∧
    Store.seqScanRids c6file = [(0, 0), (1, 0)] ∧
    (1, 0) ∉ c6tableA.records ∧
    Store.fetch c6file (1, 0) = .ok [9] := by
  refine ⟨by decide, by decide, by decide, by decide⟩

open MyDb in
/-- Claim C6 amended: the RIDs SeqScan enumerates are exactly the
non-tombstone slots of every page of the data file, regardless of which
table owns the page: `rid` is emitted iff its page exists and its slot
deserializes to a non-empty tuple. -/
theorem C6_amended_seqscan_enumerates_live_slots
    (file : List (List Nat)) (rid : Record.RID) :
    rid ∈ Store.seqScanRids file ↔
      ∃ page t, file[rid.1]? = some page ∧
        Record.getTuple page rid.2 = some t ∧ t ≠ [] := by
  constructor
  · intro hmem
    unfold Store.seqScanRids at hmem
    rw [List.mem_flatMap] at hmem
    obtain ⟨⟨i, page⟩, hin, hmp⟩ := hmem
    rw [List.mem_map] at hmp
    obtain ⟨⟨sno, t⟩, hst, heq⟩ := hmp
    unfold Record.iterSlots at hst
    rw [List.mem_filterMap] at hst
    obtain ⟨s0, _hs0, hf⟩ := hst
    cases hgt : Record.getTuple page s0 with
    | none =>
        rw [hgt] at hf
        exact Option.noConfusion hf
    | some t0 =>
        rw [hgt] at hf
        change (if t0 ≠ [] then some (s0, t0) else none) =
          some (sno, t) at hf
        by_cases ht0 : t0 = []
        · simp [ht0] at hf
        · rw [if_pos ht0] at hf
          injection hf with hf
          rw [Prod.mk.injEq] at hf
          obtain ⟨hs, ht⟩ := hf
          subst hs
          subst ht
          subst heq
          rw [List.mk_mem_enum_iff_getElem?] at hin
          exact ⟨page, t0, hin, hgt, ht0⟩
  · rintro ⟨page, t, hp, hg, ht⟩
    unfold Store.seqScanRids
    rw [List.mem_flatMap]
    refine ⟨(rid.1, page), ?_, ?_⟩
    · rw [List.mk_mem_enum_iff_getElem?]
      exact hp
    · rw [List.mem_map]
      refine ⟨(rid.2, t), ?_, ?_⟩
      · unfold Record.iterSlots
        rw [List.mem_filterMap]
        refine ⟨rid.2,
          List.mem_range.mpr (getTuple_some_lt page rid.2 t hg), ?_⟩
        rw [hg]
        change (if t ≠ [] then some (rid.2, t) else none) =
          some (rid.2, t)
        rw [if_pos ht]
      · simp

open MyDb in
/-- Witness for C6: the amended characterization applied to the
cross-table RID of the counterexample database. -/
theorem C6_amended_seqscan_enumerates_live_slots_witness :
    ((1, 0) : Record.RID) ∈ Store.seqScanRids c6file :=
  (C6_amended_seqscan_enumerates_live_slots c6file (1, 0)).mpr
    ⟨c6pageB, [9], by decide, by decide, by decide⟩

open MyDb in
/-- Claim C7 amended: parse-stage failures yield the 400 response;
every other statement outcome — including CREATE TABLE / CREATE INDEX
failures (duplicate table), bind/build failures, and execution
failures — is a 200 or a 500, never a 400. -/
theorem C7_amended_status_mapping :
    (∀ (st : Srv.SrvState) (tokens : List Lex.TokenKind) (e : String),
        Parse.parseStmt tokens = .error e →
        (Srv.handleSql st tokens).2 = .errResp 400 "Parse error") ∧
    (∀ (st : Srv.SrvState) (stmt : Parse.Stmt),
        Srv.statusOf (Srv.handleStmt st stmt).2 = 200 ∨
        Srv.statusOf (Srv.handleStmt st stmt).2 = 500) := by
  constructor
  · intro st tokens e he
    unfold Srv.handleSql
    rw [he]
  · intro st stmt
    cases stmt with
    | createTable name cols =>
        unfold Srv.handleStmt
        dsimp only
        split
        · exact Or.inr rfl
        · exact Or.inl rfl
    | createIndex ixName table column =>
        unfold Srv.handleStmt
        dsimp only
        split
        · exact Or.inr rfl
        · exact Or.inl rfl
    | insertInto table cols vals =>
        unfold Srv.handleStmt
        dsimp only
        split
        · exact Or.inr rfl
        · split
          · exact Or.inr rfl
          · exact Or.inl rfl
    | select projs table filterE =>
        unfold Srv.handleStmt
        dsimp only
        split
        · exact Or.inr rfl
        · split
          · exact Or.inr rfl
          · exact Or.inl rfl

open MyDb in
/-- Witness for C7: the 400 mapping applied to an unparsable token
stream, and the never-400 mapping applied to a CREATE TABLE. -/
theorem C7_amended_status_mapping_witness :
    (Srv.handleSql Srv.initSrv [Lex.TokenKind.semicolon]).2 =
      .errResp 400 "Parse error" ∧
    (Srv.statusOf
        (Srv.handleStmt Srv.initSrv
          (.createTable "USERS" [("ID", "INT")])).2 = 200 ∨
      Srv.statusOf
        (Srv.handleStmt Srv.initSrv
          (.createTable "USERS" [("ID", "INT")])).2 = 500) :=
  ⟨C7_amended_status_mapping.1 Srv.initSrv [.semicolon]
      "Unexpected token at start of statement" (by decide),
   C7_amended_status_mapping.2 Srv.initSrv
      (.createTable "USERS" [("ID", "INT")])⟩

open MyDb in
/-- Claim C8 amended: among *queued* waiters, grants made by
`unlock_all` do respect FIFO order — the woken requests are exactly a
prefix of the wait queue, in order (arriving requests, however, bypass
the queue whenever they are compatible with the current holders, as the
counterexample shows). -/
theorem C8_amended_queue_grants_fifo_prefix
    (holders : List (Nat × Lock.LockMode))
    (queue : List Lock.LockRequest) :
    (Lock.grantLoop holders queue).2.2 ++
      (Lock.grantLoop holders queue).2.1 = queue := by
  induction queue generalizing holders with
  | nil => rfl
  | cons q rest ih =>
      unfold Lock.grantLoop
      split
      · split
        · simp
        · simpa using ih (holders ++ [(q.tx, q.mode)])
      · simp

set_option maxHeartbeats 1000000 in
open MyDb in
/-- Claim C9 amended: the storage catalog stores and matches exact
strings — after `create_table(name)`, lookups succeed exactly for the
identical string and other probes are unaffected — while the lexer
ASCII-uppercases every identifier, so its identifier tokens never
contain a lowercase ASCII letter (the user's original casing is not
preserved; SQL-level names are all normalized to uppercase before the
catalog sees them). -/
theorem C9_amended_exact_catalog_and_upper_lexer :
    (∀ (ts : Cat.CatTables) (name : String) (cols : List Cat.SColumnInfo)
        (ts2 : Cat.CatTables),
        Cat.createTable ts name cols = .ok ts2 →
        Cat.lookupTable ts name = none ∧
        Cat.getTable ts2 name = .ok ⟨name, cols, []⟩ ∧
        ∀ m, m ≠ name → Cat.getTable ts2 m = Cat.getTable ts m) ∧
    (∀ (raw u : String), Lex.identOrKeyword raw = .identifier u →
        ∀ c ∈ u.data, ¬(97 ≤ c.toNat ∧ c.toNat ≤ 122)) := by
  constructor
  · intro ts name cols ts2 h
    unfold Cat.createTable at h
    split at h
    · cases h
    · rename_i hnone
      injection h with h
      subst h
      refine ⟨Option.not_isSome_iff_eq_none.mp hnone, ?_, ?_⟩
      · unfold Cat.getTable Cat.lookupTable
        simp [List.lookup]
      · intro m hm
        unfold Cat.getTable Cat.lookupTable
        have hlk : List.lookup m
            ((name, (⟨name, cols, []⟩ : Cat.STableInfo)) :: ts) =
            List.lookup m ts := by
          simp [List.lookup, beq_eq_false_iff_ne.mpr hm]
        rw [hlk]
  · intro raw u h c hc
    have hu : u = Lex.asciiUpper raw := by
      unfold Lex.identOrKeyword at h
      dsimp only at h
      repeat' split at h
      all_goals first
        | exact Lex.TokenKind.noConfusion h
        | (injection h with h2; exact h2.symm)
    subst hu
    simp only [Lex.asciiUpper] at hc
    rcases List.mem_map.mp hc with ⟨c0, _hc0, hcc⟩
    subst hcc
    unfold Lex.upChar
    split
    · rename_i hcond
      have hv : (c0.toNat - 32).isValidChar := Or.inl (by omega)
      have hofn : (Char.ofNat (c0.toNat - 32)).toNat = c0.toNat - 32 := by
        unfold Char.ofNat
        rw [dif_pos hv]
        rfl
      rw [hofn]
      omega
    · rename_i hcond
      exact hcond

open MyDb in
/-- Witness for C9: the amended theorem applied to creating "users" in
the empty catalog and to lexing the identifier "users". -/
theorem C9_amended_exact_catalog_and_upper_lexer_witness :
    (Cat.lookupTable [] "users" = none ∧
      Cat.getTable [("users", ⟨"users", [⟨"id", Cat.SDataType.int⟩], []⟩)]
          "users" = .ok ⟨"users", [⟨"id", .int⟩], []⟩ ∧
      ∀ m, m ≠ "users" →
        Cat.getTable [("users", ⟨"users", [⟨"id", Cat.SDataType.int⟩], []⟩)]
            m = Cat.getTable [] m) ∧
    (∀ c ∈ "USERS".data, ¬(97 ≤ c.toNat ∧ c.toNat ≤ 122)) :=
  ⟨C9_amended_exact_catalog_and_upper_lexer.1 [] "users"
      [⟨"id", .int⟩] [("users", ⟨"users", [⟨"id", .int⟩], []⟩)]
      (by decide),
   C9_amended_exact_catalog_and_upper_lexer.2 "users" "USERS"
      (by decide)⟩

open MyDb in
/-- Claim C10: tombstoning is invisible to point lookups and visible
only to iteration.  After `delete_tuple(slot)` zeroes the slot's
length, `get_tuple(slot)` still returns `Some` of an empty slice and
`Storage::fetch` of that RID returns `Ok` with an empty buffer;
`None` / the `Record not found` error arises exactly for slots at or
beyond `slot_count`; and `iter_slots` skips the tombstoned slot.  The
hypothesis is the slotted-page invariant that the slot directory lies
within the page. -/
theorem C10_tombstone_read_semantics
    (d : List Nat) (slot : Nat) (d2 : List Nat)
    (file : List (List Nat)) (p : Nat)
    (hdel : Record.deleteTuple d slot = .ok d2)
    (hdir : Record.HEADER_SIZE +
        Record.SLOT_ENTRY_SIZE * Record.slotCount d ≤ d.length)
    (hfile : file[p]? = some d2) :
    Record.getTuple d2 slot = some [] ∧
    Store.fetch file (p, slot) = .ok [] ∧
    (∀ s, Record.getTuple d2 s = none ↔ Record.slotCount d2 ≤ s) ∧
    (∀ s, Store.fetch file (p, s) = .error "Record not found" ↔
        Record.slotCount d2 ≤ s) ∧
    (∀ pr ∈ Record.iterSlots d2, pr.1 ≠ slot) := by
  unfold Record.deleteTuple at hdel
  split at hdel
  · cases hdel
  · rename_i hslot
    injection hdel with hdel
    rw [show Record.slotDirOffset + slot * Record.SLOT_ENTRY_SIZE + 2 =
      12 + slot * 4 + 2 from rfl] at hdel
    have hdirN : 12 + 4 * Record.slotCount d ≤ d.length := hdir
    have hsc : Record.slotCount d2 = Record.slotCount d := by
      rw [← hdel]
      show Bytes.readU16 _ 8 = Bytes.readU16 d 8
      unfold Bytes.readU16
      rw [Bytes.readByte_writeBytes_lt _ _ _ _ (by omega),
        Bytes.readByte_writeBytes_lt _ _ _ _ (by omega)]
    have hlen0 : Bytes.readU16 d2
        (Record.slotDirOffset + slot * Record.SLOT_ENTRY_SIZE + 2) = 0 := by
      rw [← hdel]
      show Bytes.readU16 _ (12 + slot * 4 + 2) = 0
      unfold Bytes.readU16
      have h0 := Bytes.readByte_writeBytes_get (Bytes.u16Bytes 0) d
        (12 + slot * 4 + 2) 0 (by decide)
        (by show 12 + slot * 4 + 2 + 2 ≤ d.length; omega)
      have h1 := Bytes.readByte_writeBytes_get (Bytes.u16Bytes 0) d
        (12 + slot * 4 + 2) 1 (by decide)
        (by show 12 + slot * 4 + 2 + 2 ≤ d.length; omega)
      simp only [Nat.add_zero] at h0
      rw [show (12 : Nat) + slot * 4 + 2 + 1 =
        12 + slot * 4 + 2 + 1 from rfl] at h1
      rw [h0, h1]
      rfl
    have hget : Record.getTuple d2 slot = some [] := by
      unfold Record.getTuple
      dsimp only
      rw [hsc, if_neg hslot, hlen0]
      simp
    have hnone : ∀ s, Record.getTuple d2 s = none ↔
        Record.slotCount d2 ≤ s := by
      intro s
      unfold Record.getTuple
      dsimp only
      split
      · rename_i hle
        simp [hle]
      · rename_i hgt
        simp [hgt]
    have hfetch : Store.fetch file (p, slot) = .ok [] := by
      unfold Store.fetch Store.readPage
      rw [hfile]
      simp [hget]
    refine ⟨hget, hfetch, hnone, ?_, ?_⟩
    · intro s
      unfold Store.fetch Store.readPage
      rw [hfile]
      cases hg : Record.getTuple d2 s with
      | some t =>
          have hlt' := getTuple_some_lt d2 s t hg
          simp only [hg]
          constructor
          · intro hcontra
            cases hcontra
          · intro hle
            omega
      | none =>
          have hle := (hnone s).mp hg
          simp only [hg]
          constructor
          · intro _
            exact hle
          · intro _
            trivial
    · intro pr hpr
      unfold Record.iterSlots at hpr
      rw [List.mem_filterMap] at hpr
      obtain ⟨s0, _hs0, hf⟩ := hpr
      cases hg : Record.getTuple d2 s0 with
      | none =>
          rw [hg] at hf
          exact Option.noConfusion hf
      | some t0 =>
          rw [hg] at hf
          change (if t0 ≠ [] then some (s0, t0) else none) = some pr at hf
          by_cases ht0 : t0 = []
          · simp [ht0] at hf
          · rw [if_pos ht0] at hf
            injection hf with hf
            subst hf
            intro hcontra
            simp only at hcontra
            rw [hcontra] at hg
            rw [hget] at hg
            injection hg with hg
            exact ht0 hg.symm

open MyDb in
/-- Witness for C10: the theorem applied to a concrete one-row page
whose slot 0 has been tombstoned. -/
theorem C10_tombstone_read_semantics_witness :
    Record.getTuple c10deleted 0 = some [] ∧
    Store.fetch [c10deleted] (0, 0) = .ok [] ∧
    (∀ s, Record.getTuple c10deleted s = none ↔
        Record.slotCount c10deleted ≤ s) ∧
    (∀ s, Store.fetch [c10deleted] (0, s) = .error "Record not found" ↔
        Record.slotCount c10deleted ≤ s) ∧
    (∀ pr ∈ Record.iterSlots c10deleted, pr.1 ≠ 0) :=
  C10_tombstone_read_semantics c10page 0 c10deleted [c10deleted] 0
    (by decide) (by decide) (by decide)
